import Mathlib

/-!
Shallow embedding of the mcp_codebeamer_cbql repository core:
the CBQL validator (src/utils/cbql_validator.py), the response
classification of the remote request gateway
(src/utils/codebeamer_client.py, CodebeamerClient.request), and the
paginated query executor (src/main.py, query_items), together with the
rate-limit rendering of get_project_details (src/main.py).

Strings are modelled as lists of characters; Python string operations
(strip, upper, substring membership, int conversion) are modelled on
ASCII text, which is the character range the validator rules and the
Retry-After header use.
-/

namespace MCPCodebeamer

/-- Model of Python whitespace as used by str.strip and the regex class
backslash-s, restricted to ASCII: space, tab, newline, carriage return,
vertical tab, form feed. -/
def isSpaceChar (c : Char) : Bool :=
  c = ' ' || c = '\t' || c = '\n' || c = '\r' || c = '\x0b' || c = '\x0c'

/-- Model of the regex word-character class backslash-w (ASCII range):
letters, digits and underscore. -/
def isWordChar (c : Char) : Bool := c.isAlphanum || c = '_'

/-- Model of Python str.strip(): remove leading and trailing whitespace. -/
def pyStripL (l : List Char) : List Char :=
  ((l.dropWhile isSpaceChar).reverse.dropWhile isSpaceChar).reverse

/-- Model of Python str.upper() on ASCII text: uppercase each character. -/
def upperL (l : List Char) : List Char := l.map Char.toUpper

/-- Does the character list begin with the given needle? -/
def startsWithL : List Char → List Char → Bool
  | [], _ => true
  | _ :: _, [] => false
  | n :: ns, c :: cs => (n = c) && startsWithL ns cs

/-- Model of the Python substring test, needle in haystack. -/
def containsSub (needle : List Char) : List Char → Bool
  | [] => needle.isEmpty
  | c :: cs => startsWithL needle (c :: cs) || containsSub needle cs

/-- The forbidden keyword list of src/utils/cbql_validator.py, in source
order. -/
def FORBIDDEN_KEYWORDS : List String :=
  ["SELECT", "UPDATE", "DELETE", "INSERT", "JOIN"]

/-- Case-insensitive literal matcher for the scope regex: consume the
given lowercase pattern characters from the front of the input, comparing
each input character lowercased, and return the rest on success. -/
def consumeCI : List Char → List Char → Option (List Char)
  | [], cs => some cs
  | _ :: _, [] => none
  | k :: ks, c :: cs => if c.toLower = k then consumeCI ks cs else none

/-- The literal "tracker" of the scope regex, lowercased. -/
def trackerChars : List Char := ['t', 'r', 'a', 'c', 'k', 'e', 'r']

/-- The literal "project" of the scope regex, lowercased. -/
def projectChars : List Char := ['p', 'r', 'o', 'j', 'e', 'c', 't']

/-- The literal "IN" of the scope regex, lowercased. -/
def inChars : List Char := ['i', 'n']

/-- Greedy whitespace skip, modelling backslash-s-star in the scope
regex (the following literal is never a whitespace character, so greedy
matching is exact). -/
def dropSpacesL (cs : List Char) : List Char := cs.dropWhile isSpaceChar

/-- Does the list begin with the given character? -/
def eqHeadL (c : Char) : List Char → Bool
  | c2 :: _ => c2 = c
  | [] => false

/-- First alternative of the scope regex: tracker, backslash-s-star,
equals sign. -/
def scopeTrackerEq (cs : List Char) : Bool :=
  match consumeCI trackerChars cs with
  | some rest => eqHeadL '=' (dropSpacesL rest)
  | none => false

/-- Second alternative of the scope regex: tracker, backslash-s-plus,
IN; at least one whitespace character, then any further whitespace,
then the literal IN. -/
def scopeTrackerIn (cs : List Char) : Bool :=
  match consumeCI trackerChars cs with
  | some (c :: rest2) =>
      isSpaceChar c && (consumeCI inChars (dropSpacesL rest2)).isSome
  | _ => false

/-- Third alternative of the scope regex: project, backslash-s-star,
equals sign. -/
def scopeProjectEq (cs : List Char) : Bool :=
  match consumeCI projectChars cs with
  | some rest => eqHeadL '=' (dropSpacesL rest)
  | none => false

/-- Does one alternative of the scope regex of
src/utils/cbql_validator.py match starting at the head of the list
(case-insensitively)? -/
def scopeHere (cs : List Char) : Bool :=
  scopeTrackerEq cs || scopeTrackerIn cs || scopeProjectEq cs

/-- Scan of re.search for the scope pattern: try the alternatives at
every position whose preceding character satisfies the word-boundary
test (the pattern starts with a word character, so the boundary holds
exactly when the previous character is absent or not a word character).
The flag records whether the boundary test holds at the current
position. -/
def scopeSearchAux (b : Bool) : List Char → Bool
  | [] => false
  | c :: cs => (b && scopeHere (c :: cs)) || scopeSearchAux (!isWordChar c) cs

/-- Model of SCOPE_PATTERN.search of src/utils/cbql_validator.py. -/
def scopeSearch (l : List Char) : Bool := scopeSearchAux true l

/-- Result of validate_cbql: the trimmed query on success, or the
ValueError message raised. -/
inductive VResult where
  | ok (query : String)
  | error (msg : String)
deriving DecidableEq

/-- Message of the empty-query ValueError in validate_cbql. -/
def emptyMsg : String := "CBQL cannot be empty"

/-- Message of the forbidden-keyword ValueError in validate_cbql; the
\x27 escapes are the single quotes of the Python f-string. -/
def forbiddenMsg (kw : String) : String :=
  "Invalid CBQL: \x27" ++ kw ++ "\x27 is not supported. CBQL is not SQL."

/-- Message of the missing-scope ValueError in validate_cbql. -/
def scopeMsg : String := "Invalid CBQL: tracker or project scope is required."

/-- Message of the multiple-statements ValueError in validate_cbql. -/
def multiMsg : String := "Multiple CBQL statements are not allowed."

/-- The first forbidden keyword (in source order) occurring
case-insensitively in the uppercased query, as found by the for loop of
validate_cbql. -/
def firstForbidden (upper : List Char) : Option String :=
  FORBIDDEN_KEYWORDS.find? (fun kw => containsSub kw.data upper)

/-- Embedding of validate_cbql of src/utils/cbql_validator.py on
character lists: reject empty or whitespace-only input, then any
forbidden keyword as a case-insensitive substring, then a missing scope
clause, then a semicolon; otherwise return the stripped query. -/
def validateL (l : List Char) : VResult :=
  if l = [] ∨ pyStripL l = [] then .error emptyMsg
  else
    match firstForbidden (upperL l) with
    | some kw => .error (forbiddenMsg kw)
    | none =>
      if scopeSearch l = false then .error scopeMsg
      else if ';' ∈ l then .error multiMsg
      else .ok (pyStripL l).asString

/-- Embedding of validate_cbql of src/utils/cbql_validator.py. -/
def validate_cbql (s : String) : VResult := validateL s.data

/-! Remote request gateway: CodebeamerClient.request of
src/utils/codebeamer_client.py, modelled from the point where the HTTP
response has been received. -/

/-- Accumulate decimal digits; fails on the first non-digit. -/
def digitsToNat (acc : Nat) : List Char → Option Nat
  | [] => some acc
  | c :: cs =>
      if c.isDigit then digitsToNat (acc * 10 + (c.toNat - '0'.toNat)) cs
      else none

/-- A non-empty run of decimal digits, as a number. -/
def digitsNonempty : List Char → Option Nat
  | [] => none
  | c :: cs => digitsToNat 0 (c :: cs)

/-- Model of the Python int constructor on a string, for the ASCII
decimal numerals a Retry-After header carries: surrounding whitespace is
ignored, an optional sign precedes a non-empty digit run; anything else
raises ValueError, modelled as none. -/
def pyIntOfString (s : String) : Option Int :=
  match pyStripL s.data with
  | '+' :: ds => (digitsNonempty ds).map Int.ofNat
  | '-' :: ds => (digitsNonempty ds).map (fun n => -(n : Int))
  | ds => (digitsNonempty ds).map Int.ofNat

/-- The received HTTP response, as CodebeamerClient.request sees it:
status code, the optional Retry-After header value, and the decoded JSON
body when the body decodes (none models a json() decode failure). -/
structure HttpResponse (β : Type) where
  status : Nat
  retryAfterHeader : Option String
  body : Option β
deriving DecidableEq

/-- Result of CodebeamerClient.request: the decoded body, the
RateLimited exception with its retry-after seconds, the ValueError
raised by the int conversion of an unparseable Retry-After header, the
HTTPStatusError raised by raise_for_status, or a JSON decode error. -/
inductive ClientResult (β : Type) where
  | ok (body : β)
  | rateLimited (retryAfter : Int)
  | valueError
  | httpStatusError (status : Nat)
  | jsonDecodeError
deriving DecidableEq

namespace CodebeamerClient

/-- Embedding of the response handling of CodebeamerClient.request of
src/utils/codebeamer_client.py: on status 429 convert the Retry-After
header with int, defaulting to 30 only when the header is absent, and
raise RateLimited; otherwise raise_for_status rejects every status of
400 and above; otherwise return the decoded JSON body. -/
def request (resp : HttpResponse β) : ClientResult β :=
  if resp.status = 429 then
    match resp.retryAfterHeader with
    | none => .rateLimited 30
    | some h =>
      match pyIntOfString h with
      | some n => .rateLimited n
      | none => .valueError
  else if 400 ≤ resp.status then .httpStatusError resp.status
  else
    match resp.body with
    | some b => .ok b
    | none => .jsonDecodeError

end CodebeamerClient

/-! Paginated query executor: the query_items tool of src/main.py. -/

/-- Outcome of one gateway call as the executor observes it: a decoded
response body, or the RateLimited exception. -/
inductive GwResult (β : Type) where
  | success (body : β)
  | rateLimited (retryAfter : Int)
deriving DecidableEq

/-- The JSON body query_items sends to POST /v3/items/query. -/
structure QueryBody where
  queryString : String
  page : Nat
  pageSize : Option Int
deriving DecidableEq

/-- A progress event streamed to the context by query_items: the START
event, or a PROGRESS event with the page number and the number of items
fetched on that page. -/
inductive Event where
  | start
  | progress (page : Nat) (itemsFetched : Nat)
deriving DecidableEq

/-- Final outcome of a query_items run: the totalCount and items
dictionary, the RuntimeError raised for a RateLimited exception, the
TypeError raised when page_size is None and the loop compares a length
against it, or divergence (the fuel bound was reached before the loop
stopped). -/
inductive Outcome (α : Type) where
  | ok (totalCount : Nat) (items : List α)
  | rateLimitedErr (msg : String)
  | typeErr
  | diverge
deriving DecidableEq

/-- Observable trace of one query_items run: the request bodies sent to
the gateway in order, the events streamed in order, and the outcome. -/
structure RunTrace (α : Type) where
  requests : List QueryBody
  events : List Event
  outcome : Outcome α
deriving DecidableEq

/-- The pagination loop of query_items of src/main.py. The remote
service is the function resp from page numbers to gateway outcomes; a
success body carries the optional items field of the decoded response
(result.get with default). Requests and events are accumulated in
reverse and reversed when the loop stops. One fuel unit is spent per
iteration; exhausted fuel models a loop that has not yet terminated. -/
def queryLoop (cbql : String) (resp : Nat → GwResult (Option (List α)))
    (pageSize : Option Int) :
    Nat → Nat → List α → List QueryBody → List Event → RunTrace α
  | 0, _, _, reqs, evs => ⟨reqs.reverse, evs.reverse, .diverge⟩
  | fuel + 1, page, acc, reqs, evs =>
    let req : QueryBody := ⟨cbql, page, pageSize⟩
    match resp page with
    | .rateLimited r =>
        ⟨(req :: reqs).reverse, evs.reverse,
         .rateLimitedErr ("RATE_LIMITED: " ++ toString r)⟩
    | .success body =>
        let items := body.getD []
        let acc2 := acc ++ items
        let evs2 := Event.progress page items.length :: evs
        match pageSize with
        | none => ⟨(req :: reqs).reverse, evs2.reverse, .typeErr⟩
        | some ps =>
          if (items.length : Int) < ps then
            ⟨(req :: reqs).reverse, evs2.reverse, .ok acc2.length acc2⟩
          else
            queryLoop cbql resp pageSize fuel (page + 1) acc2 (req :: reqs) evs2

/-- Embedding of the query_items tool of src/main.py: emit START, then
run the pagination loop from page 1 with an empty accumulator. The raw
cbql argument is placed in every request body unchanged; the RateLimited
handler renders the RuntimeError message with a space after the colon,
exactly as the f-string on line 120 of src/main.py does. -/
def query_items (cbql : String) (resp : Nat → GwResult (Option (List α)))
    (pageSize : Option Int) (fuel : Nat) : RunTrace α :=
  queryLoop cbql resp pageSize fuel 1 [] [] [Event.start]

/-- Embedding of the get_project_details tool of src/main.py, reduced to
its error-surfacing behavior: the project body is passed through
opaquely on success, and a RateLimited exception is rendered as the
RuntimeError message with no space after the colon, exactly as the
f-string on line 247 of src/main.py does. -/
def get_project_details (res : GwResult β) : Except String β :=
  match res with
  | .success b => .ok b
  | .rateLimited r => .error ("RATE_LIMITED:" ++ toString r)

/-! Helper definitions for the proofs, and concrete stub remote services
used to instantiate the theorems. -/

/-- Trailing-whitespace removal, the second half of pyStripL. -/
def dropTrailingL (l : List Char) : List Char :=
  (l.reverse.dropWhile isSpaceChar).reverse

/-- Stub remote service returning pages of 500, 500 and 237 items. -/
def stubPages : Nat → GwResult (Option (List Nat)) := fun p =>
  if p = 1 then .success (some (List.replicate 500 0))
  else if p = 2 then .success (some (List.replicate 500 0))
  else .success (some (List.replicate 237 0))

/-- Stub remote service returning a full page 1 and a rate-limit signal
with retry-after 7 on every later page. -/
def stubRateLimitedPage2 : Nat → GwResult (Option (List Nat)) := fun p =>
  if p = 1 then .success (some (List.replicate 500 0)) else .rateLimited 7

/-- Stub remote service returning an empty page every time. -/
def stubEmptyPages : Nat → GwResult (Option (List Nat)) :=
  fun _ => .success (some [])

/-- Stub remote service answering every page with a rate-limit signal
with retry-after 30. -/
def stubAlwaysRateLimited : Nat → GwResult (Option (List Nat)) :=
  fun _ => .rateLimited 30

/-! Lemmas about characters and whitespace. -/

theorem isSpaceChar_cases {c : Char} (h : isSpaceChar c = true) :
    c = ' ' ∨ c = '\t' ∨ c = '\n' ∨ c = '\r' ∨ c = '\x0b' ∨ c = '\x0c' := by
  simp only [isSpaceChar, Bool.or_eq_true, decide_eq_true_eq] at h
  tauto

theorem toLower_of_space {c : Char} (h : isSpaceChar c = true) : c.toLower = c := by
  rcases isSpaceChar_cases h with rfl | rfl | rfl | rfl | rfl | rfl <;> decide

theorem toUpper_of_space {c : Char} (h : isSpaceChar c = true) : c.toUpper = c := by
  rcases isSpaceChar_cases h with rfl | rfl | rfl | rfl | rfl | rfl <;> decide

/-! Lemmas about pyStripL. -/

theorem pyStripL_eq (l : List Char) :
    pyStripL l = dropTrailingL (l.dropWhile isSpaceChar) := rfl

theorem dropTrailingL_decomp (m : List Char) :
    ∃ t, m = dropTrailingL m ++ t ∧ ∀ c ∈ t, isSpaceChar c = true := by
  refine ⟨(m.reverse.takeWhile isSpaceChar).reverse, ?_, ?_⟩
  · conv_lhs => rw [← m.reverse_reverse,
      ← List.takeWhile_append_dropWhile isSpaceChar m.reverse]
    rw [List.reverse_append]
    rfl
  · intro c hc
    rw [List.mem_reverse] at hc
    exact List.mem_takeWhile_imp hc

theorem pyStripL_decomp (l : List Char) :
    ∃ a b, l = a ++ pyStripL l ++ b ∧ (∀ c ∈ a, isSpaceChar c = true) ∧
      ∀ c ∈ b, isSpaceChar c = true := by
  obtain ⟨t, ht, hts⟩ := dropTrailingL_decomp (l.dropWhile isSpaceChar)
  refine ⟨l.takeWhile isSpaceChar, t, ?_, ?_, hts⟩
  · rw [pyStripL_eq, List.append_assoc, ← ht,
      List.takeWhile_append_dropWhile]
  · intro c hc
    exact List.mem_takeWhile_imp hc

theorem dropWhile_dropTrailingL (m : List Char)
    (hm : m.dropWhile isSpaceChar = m) :
    (dropTrailingL m).dropWhile isSpaceChar = dropTrailingL m := by
  obtain ⟨t, ht, _⟩ := dropTrailingL_decomp m
  rcases hd : dropTrailingL m with _ | ⟨c, cs⟩
  · rfl
  · rw [hd] at ht
    have hsp : isSpaceChar c = false := by
      by_contra hcon
      rw [Bool.not_eq_false] at hcon
      have h1 : m.dropWhile isSpaceChar = (cs ++ t).dropWhile isSpaceChar := by
        rw [ht, List.cons_append, List.dropWhile_cons_of_pos hcon]
      rw [hm] at h1
      have h2 := congrArg List.length h1
      have h3 := (List.dropWhile_suffix (l := cs ++ t) isSpaceChar).length_le
      rw [ht] at h2
      simp only [List.cons_append, List.length_cons, List.length_append] at h2 h3
      omega
    exact List.dropWhile_cons_of_neg (by simp [hsp])

theorem dropTrailingL_idem (m : List Char) :
    dropTrailingL (dropTrailingL m) = dropTrailingL m := by
  unfold dropTrailingL
  rw [List.reverse_reverse, List.dropWhile_idempotent]

theorem pyStripL_idem (l : List Char) : pyStripL (pyStripL l) = pyStripL l := by
  rw [pyStripL_eq l, pyStripL_eq,
    dropWhile_dropTrailingL _ (List.dropWhile_idempotent isSpaceChar l),
    dropTrailingL_idem]

/-! Lemmas about the substring test. -/

theorem startsWithL_append {n m : List Char} (t : List Char)
    (h : startsWithL n m = true) : startsWithL n (m ++ t) = true := by
  induction n generalizing m with
  | nil => rfl
  | cons k ks ih =>
    cases m with
    | nil => simp [startsWithL] at h
    | cons c cs =>
      simp only [startsWithL, Bool.and_eq_true] at h
      simp only [List.cons_append, startsWithL, Bool.and_eq_true]
      exact ⟨h.1, ih h.2⟩

theorem containsSub_append_right {n : List Char} (x : List Char) {y : List Char}
    (h : containsSub n y = true) : containsSub n (x ++ y) = true := by
  induction x with
  | nil => simpa using h
  | cons c cs ih =>
    simp only [List.cons_append, containsSub, Bool.or_eq_true]
    exact Or.inr ih

theorem containsSub_append_left {n m : List Char} (b : List Char)
    (h : containsSub n m = true) : containsSub n (m ++ b) = true := by
  induction m with
  | nil =>
    cases n with
    | nil =>
      cases b with
      | nil => rfl
      | cons c cs => simp [containsSub, startsWithL]
    | cons k ks => simp [containsSub, List.isEmpty] at h
  | cons c cs ih =>
    simp only [containsSub, Bool.or_eq_true] at h
    simp only [List.cons_append, containsSub, Bool.or_eq_true]
    rcases h with h | h
    · exact Or.inl (by simpa using startsWithL_append (m := c :: cs) b h)
    · exact Or.inr (ih h)

theorem containsSub_infix {n m a b l : List Char} (hl : l = a ++ m ++ b)
    (h : containsSub n m = true) : containsSub n l = true := by
  subst hl
  rw [List.append_assoc]
  exact containsSub_append_right a (containsSub_append_left b h)

theorem containsSub_head_mem {k : Char} {ks l : List Char}
    (h : containsSub (k :: ks) l = true) : k ∈ l := by
  induction l with
  | nil => simp [containsSub, List.isEmpty] at h
  | cons c cs ih =>
    simp only [containsSub, Bool.or_eq_true] at h
    rcases h with h | h
    · simp only [startsWithL, Bool.and_eq_true, decide_eq_true_eq] at h
      rw [h.1]
      exact List.mem_cons_self _ _
    · exact List.mem_cons_of_mem _ (ih h)

/-! Lemmas about the scope search. -/

theorem isWordChar_of_space {c : Char} (h : isSpaceChar c = true) :
    isWordChar c = false := by
  rcases isSpaceChar_cases h with rfl | rfl | rfl | rfl | rfl | rfl <;> decide

theorem consumeCI_none_of_space {ks : List Char} (hks : ks ≠ [])
    (hk : ∀ k ∈ ks, isSpaceChar k = false) {c : Char}
    (hc : isSpaceChar c = true) (cs : List Char) :
    consumeCI ks (c :: cs) = none := by
  cases ks with
  | nil => exact absurd rfl hks
  | cons k ks2 =>
    have hne : ¬ (c.toLower = k) := by
      intro he
      rw [toLower_of_space hc] at he
      have hkf := hk k (List.mem_cons_self _ _)
      rw [← he] at hkf
      simp [hc] at hkf
    simp only [consumeCI, if_neg hne]

theorem scopeHere_space_head {c : Char} (hc : isSpaceChar c = true)
    (cs : List Char) : scopeHere (c :: cs) = false := by
  unfold scopeHere scopeTrackerEq scopeTrackerIn scopeProjectEq
  rw [consumeCI_none_of_space (by decide) (by decide) hc cs,
    consumeCI_none_of_space (by decide) (by decide) hc cs]
  rfl

theorem scopeSearchAux_all_space {t : List Char}
    (ht : ∀ c ∈ t, isSpaceChar c = true) (b : Bool) :
    scopeSearchAux b t = false := by
  induction t generalizing b with
  | nil => rfl
  | cons c cs ih =>
    have hc := ht c (List.mem_cons_self _ _)
    simp only [scopeSearchAux, scopeHere_space_head hc, Bool.and_false,
      Bool.false_or]
    exact ih (fun x hx => ht x (List.mem_cons_of_mem _ hx)) _

theorem scopeSearch_dropWhile (l : List Char) :
    scopeSearch (l.dropWhile isSpaceChar) = scopeSearch l := by
  induction l with
  | nil => rfl
  | cons c cs ih =>
    by_cases hc : isSpaceChar c = true
    · rw [List.dropWhile_cons_of_pos hc, ih]
      show scopeSearchAux true cs = scopeSearchAux true (c :: cs)
      simp [scopeSearchAux, scopeHere_space_head hc, isWordChar_of_space hc]
    · rw [List.dropWhile_cons_of_neg hc]

theorem consumeCI_append_spaces {t : List Char}
    (ht : ∀ c ∈ t, isSpaceChar c = true) :
    ∀ (ks : List Char), (∀ k ∈ ks, isSpaceChar k = false) →
    ∀ {cs r : List Char}, consumeCI ks (cs ++ t) = some r →
      ∃ rest, consumeCI ks cs = some rest ∧ r = rest ++ t := by
  intro ks
  induction ks with
  | nil =>
    intro _ cs r h
    simp only [consumeCI, Option.some.injEq] at h
    exact ⟨cs, rfl, h.symm⟩
  | cons k ks2 ih =>
    intro hk cs r h
    cases cs with
    | nil =>
      rw [List.nil_append] at h
      cases t with
      | nil => simp [consumeCI] at h
      | cons c t2 =>
        rw [consumeCI_none_of_space (by simp) hk
          (ht c (List.mem_cons_self _ _)) t2] at h
        exact absurd h (by simp)
    | cons c cs2 =>
      rw [List.cons_append] at h
      simp only [consumeCI] at h
      by_cases hce : c.toLower = k
      · rw [if_pos hce] at h
        obtain ⟨rest, h1, h2⟩ :=
          ih (fun x hx => hk x (List.mem_cons_of_mem _ hx)) h
        refine ⟨rest, ?_, h2⟩
        simp only [consumeCI, if_pos hce]
        exact h1
      · rw [if_neg hce] at h
        exact absurd h (by simp)

theorem dropSpacesL_append_spaces {t : List Char}
    (ht : ∀ c ∈ t, isSpaceChar c = true) (cs : List Char) :
    (dropSpacesL cs = [] ∧ dropSpacesL (cs ++ t) = []) ∨
    (dropSpacesL (cs ++ t) = dropSpacesL cs ++ t ∧ dropSpacesL cs ≠ []) := by
  induction cs with
  | nil =>
    left
    refine ⟨rfl, ?_⟩
    rw [List.nil_append]
    exact List.dropWhile_eq_nil_iff.mpr ht
  | cons c cs2 ih =>
    by_cases hc : isSpaceChar c = true
    · have e1 : dropSpacesL (c :: cs2) = dropSpacesL cs2 := by
        simp [dropSpacesL, List.dropWhile_cons_of_pos hc]
      have e2 : dropSpacesL ((c :: cs2) ++ t) = dropSpacesL (cs2 ++ t) := by
        simp [dropSpacesL, List.cons_append, List.dropWhile_cons_of_pos hc]
      rw [e1, e2]
      exact ih
    · have e1 : dropSpacesL (c :: cs2) = c :: cs2 := by
        simp [dropSpacesL, List.dropWhile_cons_of_neg hc]
      have e2 : dropSpacesL ((c :: cs2) ++ t) = (c :: cs2) ++ t := by
        simp [dropSpacesL, List.cons_append, List.dropWhile_cons_of_neg hc]
      right
      rw [e1, e2]
      exact ⟨rfl, by simp⟩

theorem eqHeadL_eq_dropSpaces {t : List Char}
    (ht : ∀ c ∈ t, isSpaceChar c = true) {rest : List Char}
    (h : eqHeadL '=' (dropSpacesL (rest ++ t)) = true) :
    eqHeadL '=' (dropSpacesL rest) = true := by
  rcases dropSpacesL_append_spaces ht rest with ⟨h1, h2⟩ | ⟨h1, h2⟩
  · rw [h2] at h
    simp [eqHeadL] at h
  · rw [h1] at h
    rcases hd : dropSpacesL rest with _ | ⟨d, ds⟩
    · exact absurd hd h2
    · rw [hd] at h
      rw [List.cons_append] at h
      simpa [eqHeadL] using h

theorem consumeCI_in_dropSpaces {t : List Char}
    (ht : ∀ c ∈ t, isSpaceChar c = true) {rest : List Char}
    (h : (consumeCI inChars (dropSpacesL (rest ++ t))).isSome = true) :
    (consumeCI inChars (dropSpacesL rest)).isSome = true := by
  rcases dropSpacesL_append_spaces ht rest with ⟨h1, h2⟩ | ⟨h1, h2⟩
  · rw [h2] at h
    simp [consumeCI, inChars] at h
  · rw [h1] at h
    rw [Option.isSome_iff_exists] at h
    obtain ⟨r, hr⟩ := h
    obtain ⟨rest2, hr2, _⟩ := consumeCI_append_spaces ht inChars (by decide) hr
    rw [hr2]
    rfl

theorem scopeTrackerEq_append_spaces {t : List Char}
    (ht : ∀ c ∈ t, isSpaceChar c = true) {cs : List Char}
    (h : scopeTrackerEq (cs ++ t) = true) : scopeTrackerEq cs = true := by
  unfold scopeTrackerEq at h ⊢
  rcases htr : consumeCI trackerChars (cs ++ t) with _ | rest2
  · simp [htr] at h
  · simp only [htr] at h
    obtain ⟨rest, hrest, hr⟩ := consumeCI_append_spaces ht trackerChars (by decide) htr
    subst hr
    simp only [hrest]
    exact eqHeadL_eq_dropSpaces ht h

theorem scopeProjectEq_append_spaces {t : List Char}
    (ht : ∀ c ∈ t, isSpaceChar c = true) {cs : List Char}
    (h : scopeProjectEq (cs ++ t) = true) : scopeProjectEq cs = true := by
  unfold scopeProjectEq at h ⊢
  rcases htr : consumeCI projectChars (cs ++ t) with _ | rest2
  · simp [htr] at h
  · simp only [htr] at h
    obtain ⟨rest, hrest, hr⟩ := consumeCI_append_spaces ht projectChars (by decide) htr
    subst hr
    simp only [hrest]
    exact eqHeadL_eq_dropSpaces ht h

theorem scopeTrackerIn_append_spaces {t : List Char}
    (ht : ∀ c ∈ t, isSpaceChar c = true) {cs : List Char}
    (h : scopeTrackerIn (cs ++ t) = true) : scopeTrackerIn cs = true := by
  unfold scopeTrackerIn at h ⊢
  rcases htr : consumeCI trackerChars (cs ++ t) with _ | rest2
  · simp [htr] at h
  · simp only [htr] at h
    obtain ⟨rest, hrest, hr⟩ := consumeCI_append_spaces ht trackerChars (by decide) htr
    subst hr
    cases rest with
    | nil =>
      rw [List.nil_append] at h
      cases t with
      | nil => simp at h
      | cons c t2 =>
        simp only [Bool.and_eq_true] at h
        have ht2 : dropSpacesL t2 = [] :=
          List.dropWhile_eq_nil_iff.mpr
            (fun x hx => ht x (List.mem_cons_of_mem _ hx))
        rw [ht2] at h
        simp [consumeCI, inChars] at h
    | cons c rest3 =>
      rw [List.cons_append] at h
      simp only [hrest, Bool.and_eq_true] at h ⊢
      exact ⟨h.1, consumeCI_in_dropSpaces ht h.2⟩

theorem scopeHere_append_spaces {t : List Char}
    (ht : ∀ c ∈ t, isSpaceChar c = true) {cs : List Char}
    (h : scopeHere (cs ++ t) = true) : scopeHere cs = true := by
  unfold scopeHere at h ⊢
  simp only [Bool.or_eq_true] at h ⊢
  rcases h with (h | h) | h
  · exact Or.inl (Or.inl (scopeTrackerEq_append_spaces ht h))
  · exact Or.inl (Or.inr (scopeTrackerIn_append_spaces ht h))
  · exact Or.inr (scopeProjectEq_append_spaces ht h)

theorem scopeSearchAux_append_spaces {t : List Char}
    (ht : ∀ c ∈ t, isSpaceChar c = true) :
    ∀ (l : List Char) (b : Bool), scopeSearchAux b (l ++ t) = true →
      scopeSearchAux b l = true := by
  intro l
  induction l with
  | nil =>
    intro b h
    rw [List.nil_append, scopeSearchAux_all_space ht b] at h
    exact absurd h (by simp)
  | cons c cs ih =>
    intro b h
    simp only [List.cons_append, scopeSearchAux, Bool.or_eq_true,
      Bool.and_eq_true] at h ⊢
    rcases h with ⟨hb, hh⟩ | h
    · refine Or.inl ⟨hb, scopeHere_append_spaces ht ?_⟩
      rw [List.cons_append]
      exact hh
    · exact Or.inr (ih _ h)

theorem scopeSearch_pyStrip {l : List Char} (h : scopeSearch l = true) :
    scopeSearch (pyStripL l) = true := by
  rw [← scopeSearch_dropWhile l] at h
  obtain ⟨t, ht, hts⟩ := dropTrailingL_decomp (l.dropWhile isSpaceChar)
  rw [pyStripL_eq]
  refine scopeSearchAux_append_spaces hts _ true ?_
  rw [← ht]
  exact h

/-! Step lemmas for the pagination loop. -/

theorem queryLoop_full_step {α : Type} (cbql : String)
    (resp : Nat → GwResult (Option (List α))) (ps : Int) (page : Nat)
    {o : Option (List α)} {l : List α} (ho : resp page = .success o)
    (hl : o.getD [] = l) (hfull : ¬ ((l.length : Int) < ps))
    (fuel : Nat) (acc : List α) (reqs : List QueryBody) (evs : List Event) :
    queryLoop cbql resp (some ps) (fuel + 1) page acc reqs evs =
      queryLoop cbql resp (some ps) fuel (page + 1) (acc ++ l)
        (⟨cbql, page, some ps⟩ :: reqs) (Event.progress page l.length :: evs) := by
  simp only [queryLoop, ho, hl]
  rw [if_neg hfull]

theorem queryLoop_short_stop {α : Type} (cbql : String)
    (resp : Nat → GwResult (Option (List α))) (ps : Int) (page : Nat)
    {o : Option (List α)} {l : List α} (ho : resp page = .success o)
    (hl : o.getD [] = l) (hshort : (l.length : Int) < ps)
    (fuel : Nat) (acc : List α) (reqs : List QueryBody) (evs : List Event) :
    queryLoop cbql resp (some ps) (fuel + 1) page acc reqs evs =
      ⟨(QueryBody.mk cbql page (some ps) :: reqs).reverse,
       (Event.progress page l.length :: evs).reverse,
       .ok (acc ++ l).length (acc ++ l)⟩ := by
  simp only [queryLoop, ho, hl]
  rw [if_pos hshort]

theorem queryLoop_rl_stop {α : Type} (cbql : String)
    (resp : Nat → GwResult (Option (List α))) (pageSize : Option Int)
    (page : Nat) {r : Int} (ho : resp page = .rateLimited r)
    (fuel : Nat) (acc : List α) (reqs : List QueryBody) (evs : List Event) :
    queryLoop cbql resp pageSize (fuel + 1) page acc reqs evs =
      ⟨(QueryBody.mk cbql page pageSize :: reqs).reverse, evs.reverse,
       .rateLimitedErr ("RATE_LIMITED: " ++ toString r)⟩ := by
  simp only [queryLoop, ho]

theorem queryLoop_none_typeErr {α : Type} (cbql : String)
    (resp : Nat → GwResult (Option (List α))) (page : Nat)
    {o : Option (List α)} (ho : resp page = .success o)
    (fuel : Nat) (acc : List α) (reqs : List QueryBody) (evs : List Event) :
    queryLoop cbql resp none (fuel + 1) page acc reqs evs =
      ⟨(QueryBody.mk cbql page none :: reqs).reverse,
       (Event.progress page (o.getD []).length :: evs).reverse, .typeErr⟩ := by
  simp only [queryLoop, ho]

theorem queryLoop_rateLimited_outcome {α : Type} (cbql : String)
    (resp : Nat → GwResult (Option (List α))) (ps : Int) (r : Int) :
    ∀ (k page : Nat) (acc : List α) (reqs : List QueryBody) (evs : List Event)
      (fuel : Nat), k + 1 ≤ fuel →
      resp (page + k) = .rateLimited r →
      (∀ j < k, ∃ o, resp (page + j) = GwResult.success o ∧
        ps ≤ ((o.getD []).length : Int)) →
      (queryLoop cbql resp (some ps) fuel page acc reqs evs).outcome =
        .rateLimitedErr ("RATE_LIMITED: " ++ toString r) := by
  intro k
  induction k with
  | zero =>
    intro page acc reqs evs fuel hfuel hrl _
    match fuel, hfuel with
    | fuel2 + 1, _ =>
      rw [Nat.add_zero] at hrl
      rw [queryLoop_rl_stop cbql resp (some ps) page hrl]
  | succ k2 ih =>
    intro page acc reqs evs fuel hfuel hrl hfull
    match fuel, hfuel with
    | fuel2 + 1, hfuel =>
      obtain ⟨o, ho, hlen⟩ := hfull 0 (Nat.succ_pos _)
      rw [Nat.add_zero] at ho
      have hnotlt : ¬ (((o.getD []).length : Int) < ps) := by omega
      rw [queryLoop_full_step cbql resp ps page ho rfl hnotlt]
      refine ih (page + 1) _ _ _ fuel2 (by omega) ?_ ?_
      · rw [show page + 1 + k2 = page + (k2 + 1) by omega]
        exact hrl
      · intro j hj
        obtain ⟨o2, ho2, hlen2⟩ := hfull (j + 1) (by omega)
        refine ⟨o2, ?_, hlen2⟩
        rw [show page + 1 + j = page + (j + 1) by omega]
        exact ho2

theorem queryLoop_terminates {α : Type} (cbql : String)
    (resp : Nat → GwResult (Option (List α))) (ps : Int) :
    ∀ (k page : Nat) (acc : List α) (reqs : List QueryBody) (evs : List Event),
      (∃ o, resp (page + k) = GwResult.success o ∧
        ((o.getD []).length : Int) < ps) →
      (queryLoop cbql resp (some ps) (k + 1) page acc reqs evs).outcome ≠
        .diverge := by
  intro k
  induction k with
  | zero =>
    intro page acc reqs evs h
    obtain ⟨o, ho, hlt⟩ := h
    rw [Nat.add_zero] at ho
    rw [queryLoop_short_stop cbql resp ps page ho rfl hlt]
    simp
  | succ k2 ih =>
    intro page acc reqs evs h
    obtain ⟨o, ho, hlt⟩ := h
    rcases hp : resp page with b | r
    · by_cases hshort : ((b.getD []).length : Int) < ps
      · rw [queryLoop_short_stop cbql resp ps page hp rfl hshort]
        simp
      · rw [queryLoop_full_step cbql resp ps page hp rfl hshort]
        refine ih (page + 1) _ _ _ ⟨o, ?_, hlt⟩
        rw [show page + 1 + k2 = page + (k2 + 1) by omega]
        exact ho
    · rw [queryLoop_rl_stop cbql resp (some ps) page hp]
      simp

theorem queryLoop_nonpos_never_ok {α : Type} (cbql : String)
    (resp : Nat → GwResult (Option (List α))) (ps : Int) (hps : ps ≤ 0) :
    ∀ (fuel page : Nat) (acc : List α) (reqs : List QueryBody)
      (evs : List Event) (tc : Nat) (items : List α),
      (queryLoop cbql resp (some ps) fuel page acc reqs evs).outcome ≠
        .ok tc items := by
  intro fuel
  induction fuel with
  | zero =>
    intro page acc reqs evs tc items
    simp [queryLoop]
  | succ f ih =>
    intro page acc reqs evs tc items
    rcases hp : resp page with b | r
    · have hnot : ¬ ((b.getD []).length : Int) < ps := by
        have h0 : (0 : Int) ≤ ((b.getD []).length : Int) := Int.natCast_nonneg _
        omega
      rw [queryLoop_full_step cbql resp ps page hp rfl hnot]
      exact ih (page + 1) _ _ _ tc items
    · rw [queryLoop_rl_stop cbql resp (some ps) page hp]
      simp

/-! The claims. -/

/-- C1: the claim states that every queryString sent to POST
/v3/items/query has previously been returned by validate_cbql, and that
no raw caller-supplied query text reaches the gateway. The code
contradicts this: validate_cbql has no caller anywhere in the
repository, and query_items places the raw cbql argument in every
request body. At the concrete input status = Open in quotes, which the
validator rejects for a missing scope and which src/utils/spec.py lists
as an INVALID EXAMPLE, the request body sent to the gateway still
carries exactly that raw text. -/
theorem C1_raw_query_reaches_gateway :
    validate_cbql "status = \x27Open\x27" = .error scopeMsg ∧
    ((query_items "status = \x27Open\x27" stubEmptyPages (some 500)
        1).requests.map QueryBody.queryString) = ["status = \x27Open\x27"] :=
  ⟨rfl, rfl⟩

/-- C2: when the gateway raises RateLimited on page n of a run whose
earlier pages were all full, query_items fails with the rate-limited
RuntimeError and returns no aggregated result at all; the items
accumulated from pages 1 to n-1 are discarded. -/
theorem C2_rate_limited_discards_aggregation {α : Type} (cbql : String)
    (resp : Nat → GwResult (Option (List α))) (ps : Int) (n : Nat) (r : Int)
    (hn : 1 ≤ n) (hrl : resp n = .rateLimited r)
    (hfull : ∀ p, 1 ≤ p → p < n → ∃ o, resp p = GwResult.success o ∧
      ps ≤ ((o.getD []).length : Int))
    (fuel : Nat) (hfuel : n ≤ fuel) :
    (query_items cbql resp (some ps) fuel).outcome =
      .rateLimitedErr ("RATE_LIMITED: " ++ toString r) ∧
    ∀ (tc : Nat) (items : List α),
      (query_items cbql resp (some ps) fuel).outcome ≠ .ok tc items := by
  have hmain : (query_items cbql resp (some ps) fuel).outcome =
      .rateLimitedErr ("RATE_LIMITED: " ++ toString r) := by
    unfold query_items
    refine queryLoop_rateLimited_outcome cbql resp ps r (n - 1) 1 [] [] [Event.start]
      fuel (by omega) ?_ ?_
    · rw [show 1 + (n - 1) = n by omega]
      exact hrl
    · intro j hj
      obtain ⟨o, ho, hl⟩ := hfull (1 + j) (by omega) (by omega)
      exact ⟨o, ho, hl⟩
  refine ⟨hmain, ?_⟩
  intro tc items
  rw [hmain]
  simp

/-- C2 witness: with a stub returning a full page 1 of 500 items and a
rate-limit signal with retry-after 7 on page 2, the run fails with the
rate-limited RuntimeError. -/
theorem C2_witness :
    (query_items "tracker = 1" stubRateLimitedPage2 (some 500) 2).outcome =
      .rateLimitedErr ("RATE_LIMITED: " ++ toString (7 : Int)) := by
  refine (C2_rate_limited_discards_aggregation "tracker = 1"
    stubRateLimitedPage2 500 2 7 (by omega) rfl ?_ 2 (by omega)).1
  intro p h1 h2
  have hp : p = 1 := by omega
  subst hp
  refine ⟨some (List.replicate 500 0), rfl, ?_⟩
  rw [Option.getD_some, List.length_replicate]
  norm_num

/-- C3: for a remote service returning pages of 500, 500 and 237 items
under page size 500, query_items issues exactly the three requests for
pages 1, 2, 3 in that order, returns totalCount 1237 with the items
being the concatenation of the three pages in page order with in-page
order preserved, and streams exactly the events Start, Progress(1,500),
Progress(2,500), Progress(3,237) in that order. -/
theorem C3_three_full_pages {α : Type} (cbql : String)
    (resp : Nat → GwResult (Option (List α))) (l1 l2 l3 : List α)
    (h1 : resp 1 = .success (some l1)) (h2 : resp 2 = .success (some l2))
    (h3 : resp 3 = .success (some l3))
    (hl1 : l1.length = 500) (hl2 : l2.length = 500) (hl3 : l3.length = 237)
    (f : Nat) :
    query_items cbql resp (some 500) (f + 3) =
      ⟨[⟨cbql, 1, some 500⟩, ⟨cbql, 2, some 500⟩, ⟨cbql, 3, some 500⟩],
       [Event.start, Event.progress 1 500, Event.progress 2 500,
        Event.progress 3 237],
       .ok 1237 (l1 ++ l2 ++ l3)⟩ := by
  unfold query_items
  rw [show f + 3 = (f + 2) + 1 from rfl,
    queryLoop_full_step cbql resp 500 1 h1 Option.getD_some
      (by rw [hl1]; decide)]
  rw [show f + 2 = (f + 1) + 1 from rfl,
    queryLoop_full_step cbql resp 500 (1 + 1) h2 Option.getD_some
      (by rw [hl2]; decide)]
  rw [queryLoop_short_stop cbql resp 500 (1 + 1 + 1) h3 Option.getD_some
    (by rw [hl3]; decide)]
  simp [hl1, hl2, hl3, List.append_assoc]

/-- C3 witness: the concrete stub with pages of 500, 500 and 237 zeros
realizes the three-page run. -/
theorem C3_witness :
    query_items "project = 2" stubPages (some 500) 3 =
      ⟨[⟨"project = 2", 1, some 500⟩, ⟨"project = 2", 2, some 500⟩,
        ⟨"project = 2", 3, some 500⟩],
       [Event.start, Event.progress 1 500, Event.progress 2 500,
        Event.progress 3 237],
       .ok 1237 (List.replicate 500 0 ++ List.replicate 500 0 ++
         List.replicate 237 0)⟩ :=
  C3_three_full_pages "project = 2" stubPages _ _ _ rfl rfl rfl
    (List.length_replicate _ _) (List.length_replicate _ _)
    (List.length_replicate _ _) 0

/-- C4: the pagination loop stops exactly on a page strictly shorter
than the page size, including the zero-item case. First conjunct: a
remote service returning zero items on page 1 under page size 500 gives
a run with exactly one request and the result totalCount 0, items
empty. Second conjunct: whenever some page n carries strictly fewer
items than the page size, the run with fuel n has terminated, that is,
it does not exhaust its fuel. -/
theorem C4_short_page_terminates {α : Type} (cbql : String)
    (resp : Nat → GwResult (Option (List α))) :
    (∀ fuel, 1 ≤ fuel → resp 1 = .success (some []) →
      query_items cbql resp (some 500) fuel =
        ⟨[⟨cbql, 1, some 500⟩], [Event.start, Event.progress 1 0],
         .ok 0 []⟩) ∧
    (∀ (ps : Int) (n : Nat) (o : Option (List α)), 1 ≤ n →
      resp n = .success o → ((o.getD []).length : Int) < ps →
      (query_items cbql resp (some ps) n).outcome ≠ .diverge) := by
  constructor
  · intro fuel hf hz
    match fuel, hf with
    | fuel2 + 1, _ =>
      unfold query_items
      rw [queryLoop_short_stop cbql resp 500 1 hz Option.getD_some
        (by norm_num)]
      simp
  · intro ps n o hn ho hshort
    unfold query_items
    rw [show n = (n - 1) + 1 by omega]
    refine queryLoop_terminates cbql resp ps (n - 1) 1 [] [] [Event.start]
      ⟨o, ?_, hshort⟩
    rw [show 1 + (n - 1) = n by omega]
    exact ho

/-- C4 witness: the empty-page stub realizes both conjuncts at page
size 500 and fuel 1. -/
theorem C4_witness :
    (query_items "tracker = 2" stubEmptyPages (some 500) 1 =
      ⟨[⟨"tracker = 2", 1, some 500⟩], [Event.start, Event.progress 1 0],
       .ok 0 []⟩) ∧
    (query_items "tracker = 2" stubEmptyPages (some 500) 1).outcome ≠
      Outcome.diverge := by
  have h := C4_short_page_terminates "tracker = 2" stubEmptyPages
  exact ⟨h.1 1 (by omega) rfl,
    h.2 500 1 (some []) (by omega) rfl (by decide)⟩

/-- C5: the claim states that every RateLimited failure reaching the
outermost boundary is rendered as the string RATE_LIMITED: immediately
followed by the seconds value with no space, as the MCP_SPEC text in
src/utils/spec.py also documents. The code contradicts this in
query_items (and list_projects), whose f-string has a space after the
colon; only get_project_details renders the documented form. At
retry-after 30 the query_items message is RATE_LIMITED:, space, 30,
which differs from the documented rendering. -/
theorem C5_rate_limited_message_has_space :
    (query_items "q" stubAlwaysRateLimited (some 500) 1).outcome =
      .rateLimitedErr "RATE_LIMITED: 30" ∧
    "RATE_LIMITED: 30" ≠ "RATE_LIMITED:" ++ toString (30 : Int) ∧
    get_project_details (GwResult.rateLimited 30 : GwResult Nat) =
      .error ("RATE_LIMITED:" ++ toString (30 : Int)) := by
  refine ⟨rfl, ?_, rfl⟩
  intro h
  have : "RATE_LIMITED: 30" = "RATE_LIMITED:30" := h.trans rfl
  simp at this

/-- C6 counterexample: the claim states that a 429 response whose
Retry-After header is unparseable yields RateLimited with the default
30. On the concrete header value soon, the int conversion instead
raises ValueError, so the call does not fail with RateLimited at all. -/
theorem C6_counterexample :
    CodebeamerClient.request
      (HttpResponse.mk 429 (some "soon") (none : Option Nat)) =
      ClientResult.valueError ∧
    (ClientResult.valueError : ClientResult Nat) ≠
      ClientResult.rateLimited 30 := by
  refine ⟨rfl, ?_⟩
  intro h
  simp at h

/-- C6 amended: for every 429 response, the call fails with RateLimited
carrying the integer value of the Retry-After header when that header
parses as an integer, and with RateLimited 30 when the header is
absent; when the header is present but unparseable the int conversion
raises ValueError instead. -/
theorem C6_rate_limit_classification {β : Type} (resp : HttpResponse β)
    (h429 : resp.status = 429) :
    (resp.retryAfterHeader = none →
      CodebeamerClient.request resp = .rateLimited 30) ∧
    (∀ (s : String) (n : Int), resp.retryAfterHeader = some s →
      pyIntOfString s = some n →
      CodebeamerClient.request resp = .rateLimited n) ∧
    (∀ (s : String), resp.retryAfterHeader = some s →
      pyIntOfString s = none →
      CodebeamerClient.request resp = .valueError) := by
  unfold CodebeamerClient.request
  rw [if_pos h429]
  refine ⟨?_, ?_, ?_⟩
  · intro h
    rw [h]
  · intro s n hs hn
    rw [hs]
    simp only [hn]
  · intro s hs hn
    rw [hs]
    simp only [hn]

/-- C6 witness: a 429 response with Retry-After 42 fails with
RateLimited 42. -/
theorem C6_witness :
    CodebeamerClient.request
      (HttpResponse.mk 429 (some "42") (none : Option Nat)) =
      ClientResult.rateLimited 42 :=
  (C6_rate_limit_classification _ rfl).2.1 "42" 42 rfl rfl

/-- C7: every string whose stripped form is non-empty, which matches
the scope regex, which contains no forbidden keyword as a
case-insensitive substring, and which contains no semicolon, validates
successfully to exactly its whitespace-trimmed form. -/
theorem C7_valid_query_returns_trimmed (s : String)
    (hne : pyStripL s.data ≠ [])
    (hscope : scopeSearch s.data = true)
    (hkw : ∀ kw ∈ FORBIDDEN_KEYWORDS,
      containsSub kw.data (upperL s.data) = false)
    (hsemi : ';' ∉ s.data) :
    validate_cbql s = .ok (pyStripL s.data).asString := by
  unfold validate_cbql validateL
  have hne2 : ¬ (s.data = [] ∨ pyStripL s.data = []) := by
    rintro (h | h)
    · apply hne
      rw [h]
      rfl
    · exact hne h
  rw [if_neg hne2]
  have hff : firstForbidden (upperL s.data) = none :=
    List.find?_eq_none.mpr (fun kw hkwm => by simp [hkw kw hkwm])
  simp only [hff]
  rw [if_neg (by simp [hscope]), if_neg hsemi]

/-- C7 witness: a padded tracker query validates to its trimmed form. -/
theorem C7_witness : validate_cbql "  tracker = 4  " = .ok "tracker = 4" := by
  have h := C7_valid_query_returns_trimmed "  tracker = 4  "
    (by decide) (by decide) (by decide) (by decide)
  exact h.trans (by decide)

theorem pyStripL_eq_nil_iff (l : List Char) :
    pyStripL l = [] ↔ ∀ c ∈ l, isSpaceChar c = true := by
  constructor
  · intro h c hc
    obtain ⟨a, b, hl, ha, hb⟩ := pyStripL_decomp l
    rw [h] at hl
    rw [hl] at hc
    simp only [List.append_nil, List.mem_append] at hc
    rcases hc with hc | hc
    · exact ha c hc
    · exact hb c hc
  · intro h
    unfold pyStripL
    rw [List.dropWhile_eq_nil_iff.mpr h]
    rfl

theorem no_keyword_in_all_space {k : Char} {ks l : List Char}
    (hk : isSpaceChar k = false)
    (hall : ∀ c ∈ l, isSpaceChar c = true)
    (hsub : containsSub (k :: ks) (upperL l) = true) : False := by
  have hm := containsSub_head_mem hsub
  rw [upperL, List.mem_map] at hm
  obtain ⟨c, hcmem, hcu⟩ := hm
  have hcs := hall c hcmem
  rw [toUpper_of_space hcs] at hcu
  rw [hcu] at hcs
  rw [hcs] at hk
  exact absurd hk (by simp)

/-- C8: every string containing a forbidden keyword as a
case-insensitive substring is rejected with the ValueError naming an
offending keyword (the first such keyword of the source list),
regardless of whether a scope clause is present. -/
theorem C8_forbidden_keyword_rejected (s : String) (kw : String)
    (hmem : kw ∈ FORBIDDEN_KEYWORDS)
    (hsub : containsSub kw.data (upperL s.data) = true) :
    ∃ kw2, kw2 ∈ FORBIDDEN_KEYWORDS ∧
      containsSub kw2.data (upperL s.data) = true ∧
      validate_cbql s = .error (forbiddenMsg kw2) := by
  have hne : pyStripL s.data ≠ [] := by
    intro hnil
    have hall := (pyStripL_eq_nil_iff s.data).mp hnil
    fin_cases hmem
    · exact no_keyword_in_all_space (k := 'S') (by decide) hall hsub
    · exact no_keyword_in_all_space (k := 'U') (by decide) hall hsub
    · exact no_keyword_in_all_space (k := 'D') (by decide) hall hsub
    · exact no_keyword_in_all_space (k := 'I') (by decide) hall hsub
    · exact no_keyword_in_all_space (k := 'J') (by decide) hall hsub
  rcases hf : firstForbidden (upperL s.data) with _ | kw2
  · exact absurd hsub (by simpa using List.find?_eq_none.mp hf kw hmem)
  · have hf2 : FORBIDDEN_KEYWORDS.find?
        (fun kw3 => containsSub kw3.data (upperL s.data)) = some kw2 := hf
    refine ⟨kw2, List.mem_of_find?_eq_some hf2,
      by simpa using List.find?_some hf2, ?_⟩
    unfold validate_cbql validateL
    rw [if_neg (by
      rintro (h | h)
      · apply hne
        rw [h]
        rfl
      · exact hne h)]
    simp only [hf]

/-- C8 witness: the lowercase query select x is rejected with the
ValueError naming SELECT. -/
theorem C8_witness :
    ∃ kw2, kw2 ∈ FORBIDDEN_KEYWORDS ∧
      containsSub kw2.data (upperL "select x".data) = true ∧
      validate_cbql "select x" = .error (forbiddenMsg kw2) :=
  C8_forbidden_keyword_rejected "select x" "SELECT" (by decide) (by decide)

theorem containsSub_upper_pyStrip {n l : List Char}
    (h : containsSub n (upperL (pyStripL l)) = true) :
    containsSub n (upperL l) = true := by
  obtain ⟨a, b, hl, _, _⟩ := pyStripL_decomp l
  refine containsSub_infix (a := upperL a) (b := upperL b)
    (m := upperL (pyStripL l)) ?_ h
  conv_lhs => rw [hl]
  simp [upperL, List.map_append]

/-- C9: validate_cbql is idempotent; whenever validation succeeds,
re-validating the returned query succeeds and returns it unchanged. -/
theorem C9_validate_idempotent (s t : String)
    (h : validate_cbql s = .ok t) : validate_cbql t = .ok t := by
  unfold validate_cbql validateL at h
  by_cases he : s.data = [] ∨ pyStripL s.data = []
  · rw [if_pos he] at h
    exact absurd h (by simp)
  rw [if_neg he] at h
  rcases hf : firstForbidden (upperL s.data) with _ | kw
  swap
  · simp only [hf] at h
    exact absurd h (by simp)
  simp only [hf] at h
  by_cases hsc : scopeSearch s.data = false
  · rw [if_pos hsc] at h
    exact absurd h (by simp)
  rw [if_neg hsc] at h
  by_cases hsemi : ';' ∈ s.data
  · rw [if_pos hsemi] at h
    exact absurd h (by simp)
  rw [if_neg hsemi] at h
  have ht : t = (pyStripL s.data).asString := (VResult.ok.inj h).symm
  subst ht
  have htd : (List.asString (pyStripL s.data)).data = pyStripL s.data := rfl
  unfold validate_cbql validateL
  rw [htd]
  have hne : pyStripL s.data ≠ [] := fun hx => he (Or.inr hx)
  rw [if_neg (by
    rintro (hx | hx)
    · exact hne hx
    · rw [pyStripL_idem] at hx
      exact hne hx)]
  have hkw := List.find?_eq_none.mp hf
  have hff : firstForbidden (upperL (pyStripL s.data)) = none := by
    refine List.find?_eq_none.mpr (fun kw hkwm => ?_)
    intro hcon
    exact absurd (containsSub_upper_pyStrip hcon)
      (by simpa using hkw kw hkwm)
  simp only [hff]
  have hsc1 : scopeSearch s.data = true := by
    revert hsc
    cases scopeSearch s.data <;> simp
  have hsc2 : scopeSearch (pyStripL s.data) = true := scopeSearch_pyStrip hsc1
  rw [if_neg (by simp [hsc2])]
  have hsemi2 : ';' ∉ pyStripL s.data := by
    intro hx
    obtain ⟨a, b, hl, _, _⟩ := pyStripL_decomp s.data
    apply hsemi
    rw [hl]
    simp only [List.mem_append]
    exact Or.inl (Or.inr hx)
  rw [if_neg hsemi2, pyStripL_idem]

/-- C9 witness: validating the already-validated query tracker = 9
returns it unchanged. -/
theorem C9_witness : validate_cbql "tracker = 9" = .ok "tracker = 9" :=
  C9_validate_idempotent " tracker = 9 " "tracker = 9" (by decide)

/-- C10: the public interface does not enforce the page size
precondition. First conjunct: for every page size at most 0 the loop
exit test can never hold, so no run ever returns a result, whatever the
remote service answers and however much fuel is granted. Second
conjunct: with page_size None, admitted by the Optional int signature,
the first successful page makes the length comparison raise a TypeError
instead of returning a result. -/
theorem C10_page_size_precondition (α : Type) (cbql : String) :
    (∀ (ps : Int), ps ≤ 0 →
      ∀ (resp : Nat → GwResult (Option (List α))) (fuel tc : Nat)
        (items : List α),
        (query_items cbql resp (some ps) fuel).outcome ≠ .ok tc items) ∧
    (∀ (resp : Nat → GwResult (Option (List α))) (o : Option (List α)),
      resp 1 = .success o → ∀ fuel, 1 ≤ fuel →
      (query_items cbql resp none fuel).outcome = .typeErr) := by
  constructor
  · intro ps hps resp fuel tc items
    exact queryLoop_nonpos_never_ok cbql resp ps hps fuel 1 [] [] [Event.start]
      tc items
  · intro resp o ho fuel hfl
    match fuel, hfl with
    | f + 1, _ =>
      unfold query_items
      rw [queryLoop_none_typeErr cbql resp 1 ho]

/-- C10 witness: with page size 0 the empty-page stub never yields a
result, and with page size None the first page raises the TypeError. -/
theorem C10_witness :
    (query_items "q" stubEmptyPages (some 0) 3).outcome ≠ Outcome.ok 0 [] ∧
    (query_items "q" stubEmptyPages none 1).outcome = Outcome.typeErr := by
  have h := C10_page_size_precondition Nat "q"
  exact ⟨h.1 0 (by omega) stubEmptyPages 3 0 [],
    h.2 stubEmptyPages (some []) rfl 1 (by omega)⟩

end MCPCodebeamer
